import Mathlib

/-!
Shallow embedding of `src/preprocessing/preprocessing.py` (martrob/dl-hatespeech).

The module under verification defines two classes:

* `Tokenizer` - builds a word-level vocabulary (`vocab : dict`, its inverse
  `reverse_vocab : dict`, a frequency table `words_count : OrderedDict`, a
  running counter `n_words`) from texts run through an external spaCy
  pipeline, and converts texts to/from integer sequences.
* `WordEmbedding` - loads a pretrained embedding file into a preallocated
  numpy matrix plus word/index maps, and serves per-word vectors with a
  configurable out-of-vocabulary policy.

Modelling conventions:

* The spaCy pipeline `self.nlp` is abstracted as a function
  `nlp : String → List String` returning the surface texts of the tokens of
  a text, and is passed explicitly to the operations that read `self.nlp`.
* Python `dict` is modelled as an insertion-ordered association list with
  Python semantics: `d[k] = v` overwrites in place if `k` is present and
  appends otherwise (`dinsert`); `d[k]` / `k in d` is `dlookup`.
  Python 3.7+ dicts preserve insertion order, which matters because
  `create_weight_matrix` iterates `self.vocab.items()`.
* Python floats are modelled as `ℚ`.  A whitespace-separated field of an
  embedding file is an `EmbField`: its surface string plus `val`, the result
  of `float(field)` (`none` when the text does not parse as a float).
* numpy randomness: `default_rng()` produces a freshly OS-seeded generator,
  so `uniform(-0.5, 0.5, n)` is modelled as reading `n` draws from an
  entropy stream `g : Nat → ℚ` (each draw `u` stands for a unit-interval
  sample, the vector entry being `-1/2 + u`) at a cursor position that the
  call advances.  The stream and cursor are passed explicitly.
* `np.random.RandomState` objects (built for an `int` seed or passed in
  directly) do NOT have a `default_rng` attribute: `default_rng` is a
  module-level function of `numpy.random`, not a `RandomState` method.
  Hence `self.random_state.default_rng()` only succeeds when
  `random_state` was left unset (`self.random_state = np.random`, the
  module).  This is modelled by `RandomState.defaultRng`.
* Exceptions are modelled by `Except PyError` (or an `Option PyError`
  component where the partially mutated state on failure is observable).
-/

namespace DLHate

/-- Python exception kinds raised by the code under verification. -/
inductive PyError
  /-- `KeyError` from `self.vocab[self.oov_token]` on a missing key. -/
  | keyError
  /-- `RuntimeError("No word embedding loaded.")`. -/
  | runtimeError
  /-- `AttributeError`: `'RandomState' object has no attribute 'default_rng'`. -/
  | attributeError
  /-- `ValueError` (bad `float(...)` parse, broadcast shape mismatch,
  or a rejected constructor argument). -/
  | valueError
  /-- `IndexError` (`splitLine[0]` on an empty line, out-of-range row). -/
  | indexError
  /-- `TypeError` (e.g. `word not in None` when no embedding is loaded). -/
  | typeError
deriving DecidableEq, Repr

/-- Decidable equality on `Except`, for evaluating concrete runs. -/
instance {e a : Type} [DecidableEq e] [DecidableEq a] : DecidableEq (Except e a) := fun x y =>
  match x, y with
  | .error u, .error v =>
    if h : u = v then .isTrue (by rw [h]) else .isFalse (by simp [h])
  | .ok u, .ok v =>
    if h : u = v then .isTrue (by rw [h]) else .isFalse (by simp [h])
  | .error _, .ok _ => .isFalse (by simp)
  | .ok _, .error _ => .isFalse (by simp)

/-- Python `str.lower()`, i.e. `String.toLower`: per-character lowercasing
(written over the character list so that concrete runs evaluate).  The
claims use it as an opaque normalisation. -/
def pyLower (s : String) : String := String.mk (s.data.map Char.toLower)

section Dict

variable {α β : Type} [DecidableEq α]

/-- Python `d[k]` / `k in d`: first (unique) binding of key `a`. -/
def dlookup : List (α × β) → α → Option β
  | [], _ => none
  | p :: rest, a => if p.1 = a then some p.2 else dlookup rest a

/-- Python `d[k] = v`: overwrite in place when the key is present,
append otherwise (dicts preserve insertion order). -/
def dinsert : List (α × β) → α → β → List (α × β)
  | [], a, b => [(a, b)]
  | p :: rest, a, b => if p.1 = a then (a, b) :: rest else p :: dinsert rest a b

/-- Sum of the stored counts of a frequency dict. -/
def sumVals (d : List (α × Nat)) : Nat := (d.map Prod.snd).sum

end Dict

/-- State of a `Tokenizer` object (`self.nlp` is passed separately). -/
structure TokState where
  oov_token : Option String
  n_words : Nat
  vocab : List (String × Nat)
  reverse_vocab : List (Nat × String)
  words_count : List (String × Nat)
deriving DecidableEq, Repr

/-- `Tokenizer.__init__`: `n_words` starts at 1 iff an OOV token is given;
all three maps start empty. -/
def tokenizerInit (oov_token : Option String) : TokState :=
  { oov_token := oov_token
    n_words := match oov_token with | some _ => 1 | none => 0
    vocab := []
    reverse_vocab := []
    words_count := [] }

/-- Vocabulary part of the per-token body of `Tokenizer.fit`: if the
lowercased token is unseen, bind it to `n_words + 1` in `vocab` and
`reverse_vocab` and increment `n_words`. -/
def vocabStep (s : TokState) (w : String) : TokState :=
  if (dlookup s.vocab w).isSome then s
  else { s with vocab := dinsert s.vocab w (s.n_words + 1)
                reverse_vocab := dinsert s.reverse_vocab (s.n_words + 1) w
                n_words := s.n_words + 1 }

/-- Frequency part of the per-token body of `Tokenizer.fit`: create the
count at 1 or increment it. -/
def countStep (s : TokState) (w : String) : TokState :=
  match dlookup s.words_count w with
  | none => { s with words_count := dinsert s.words_count w 1 }
  | some c => { s with words_count := dinsert s.words_count w (c + 1) }

/-- Per-token body of `Tokenizer.fit`, acting on `token.text.lower()`. -/
def fitToken (s : TokState) (tok : String) : TokState :=
  countStep (vocabStep s (pyLower tok)) (pyLower tok)

/-- Per-text body of `Tokenizer.fit`: run the pipeline, process each token. -/
def fitText (nlp : String → List String) (s : TokState) (text : String) : TokState :=
  (nlp text).foldl fitToken s

/-- The OOV registration at the top of `Tokenizer.fit`:
`self.vocab[self.oov_token] = 1; self.reverse_vocab[1] = self.oov_token`. -/
def registerOov (s : TokState) : TokState :=
  match s.oov_token with
  | none => s
  | some t =>
    { s with vocab := dinsert s.vocab t 1
             reverse_vocab := dinsert s.reverse_vocab 1 t }

/-- Stable insertion step for the descending-by-count reordering: the new
item goes in front of the first strictly smaller count, hence after all
equal counts (stability, as with Python `sorted(..., reverse=True)`). -/
def insertDesc (x : String × Nat) : List (String × Nat) → List (String × Nat)
  | [] => [x]
  | y :: ys => if y.2 < x.2 then x :: y :: ys else y :: insertDesc x ys

/-- `OrderedDict(sorted(self.words_count.items(), key=lambda t: t[1],
reverse=True))`: a stable sort by descending count. -/
def sortByCountDesc : List (String × Nat) → List (String × Nat)
  | [] => []
  | x :: xs => insertDesc x (sortByCountDesc xs)

/-- `Tokenizer.fit(texts)`: register the OOV token (if any), process every
token of every text, then rebuild the frequency table in descending order. -/
def fit (nlp : String → List String) (s : TokState) (texts : List String) : TokState :=
  let s2 := texts.foldl (fitText nlp) (registerOov s)
  { s2 with words_count := sortByCountDesc s2.words_count }

/-- A sequence of `fit` calls (the claims speak of fitted tokenizers). -/
def fitAll (nlp : String → List String) (s : TokState) (batches : List (List String)) :
    TokState :=
  batches.foldl (fit nlp) s

/-- Inner loop of `Tokenizer.texts_to_sequences` over the tokens of one
text: emit the index of a known lowercased token; for an unknown token emit
`self.vocab[self.oov_token]` when an OOV token is configured (a `KeyError`
when that key is absent, i.e. before any `fit`), else drop the token. -/
def seqOfTokens (s : TokState) : List String → Except PyError (List Nat)
  | [] => .ok []
  | tok :: rest =>
    match dlookup s.vocab (pyLower tok) with
    | some i =>
      match seqOfTokens s rest with
      | .error e => .error e
      | .ok is2 => .ok (i :: is2)
    | none =>
      match s.oov_token with
      | none => seqOfTokens s rest
      | some ot =>
        match dlookup s.vocab ot with
        | some i =>
          match seqOfTokens s rest with
          | .error e => .error e
          | .ok is2 => .ok (i :: is2)
        | none => .error .keyError

/-- `Tokenizer.texts_to_sequences(texts)`: one integer sequence per text;
an exception aborts the whole call. -/
def texts_to_sequences (nlp : String → List String) (s : TokState) :
    List String → Except PyError (List (List Nat))
  | [] => .ok []
  | tx :: rest =>
    match seqOfTokens s (nlp tx) with
    | .error e => .error e
    | .ok sq =>
      match texts_to_sequences nlp s rest with
      | .error e => .error e
      | .ok rs => .ok (sq :: rs)

/-- Inner loop of `Tokenizer.sequences_to_texts` over one sequence: map a
known index through `reverse_vocab`; an unknown index becomes the OOV
token's surface form when one is configured, else is dropped. -/
def wordsOfSequence (s : TokState) : List Nat → List String
  | [] => []
  | i :: rest =>
    match dlookup s.reverse_vocab i with
    | some w => w :: wordsOfSequence s rest
    | none =>
      match s.oov_token with
      | some ot => ot :: wordsOfSequence s rest
      | none => wordsOfSequence s rest

/-- `Tokenizer.sequences_to_texts(sequences)`: words joined by `' '.join`. -/
def sequences_to_texts (s : TokState) (seqs : List (List Nat)) : List String :=
  seqs.map (fun sq => String.intercalate " " (wordsOfSequence s sq))

/-- Value of `self.oov_init` after validation (`'rand'` or `'zero'`). -/
inductive OovInit
  | rand
  | zero
deriving DecidableEq, Repr

/-- Value of `self.random_state` after `WordEmbedding.__init__`:
a seeded `np.random.RandomState`, a caller-supplied `RandomState`
instance, or the `np.random` module itself (the default). -/
inductive RandomState
  | seeded (n : Int)
  | fromInstance
  | moduleDefault
deriving DecidableEq, Repr

/-- The `random_state` argument of `WordEmbedding.__init__` before
validation: an `int`, an `np.random.RandomState` instance, `None`, or
anything else (rejected with `ValueError`). -/
inductive RandomStateArg
  | int (n : Int)
  | rsInstance
  | noneArg
  | other
deriving DecidableEq, Repr

/-- The attribute access `rs.default_rng`: `default_rng` is a function of
the `numpy.random` module and is NOT a method of `np.random.RandomState`,
so the access raises `AttributeError` except when `self.random_state` is
the module (i.e. `random_state` was left unset). -/
def RandomState.defaultRng : RandomState → Except PyError Unit
  | .moduleDefault => .ok ()
  | .seeded _ => .error .attributeError
  | .fromInstance => .error .attributeError

/-- One whitespace-separated field of an embedding-file line: its surface
string and the result of `float(field)` (`none` if unparseable). -/
structure EmbField where
  str : String
  val : Option ℚ
deriving DecidableEq, Repr

/-- A numeric field (its text parses as the given rational). -/
def fnum (s : String) (q : ℚ) : EmbField := ⟨s, some q⟩

/-- A non-numeric field (`float(...)` on it raises `ValueError`). -/
def fraw (s : String) : EmbField := ⟨s, none⟩

/-- State of a `WordEmbedding` object.  `embedding`, `vocab` and
`reverse_vocab` are `None` until `load` touches them. -/
structure WEState where
  dimensions : Nat
  oov_init : OovInit
  random_state : RandomState
  embedding : Option (List (List ℚ))
  vocab : Option (List (String × Nat))
  reverse_vocab : Option (List (Nat × String))
deriving DecidableEq, Repr

/-- `WordEmbedding.__init__(dimensions, oov_init, random_state)`:
validates `oov_init ∈ ('zero','rand')`, then `random_state`
(int / RandomState / None), then `dimensions in range(50, 301)`;
the three store fields start as `None`. -/
def wordEmbeddingInit (dims : Nat) (oovArg : String) (rsArg : RandomStateArg) :
    Except PyError WEState :=
  match (if oovArg = "zero" then some OovInit.zero
         else if oovArg = "rand" then some OovInit.rand
         else none) with
  | none => .error .valueError
  | some oi =>
    match (match rsArg with
           | .int n => some (RandomState.seeded n)
           | .rsInstance => some RandomState.fromInstance
           | .noneArg => some RandomState.moduleDefault
           | .other => none) with
    | none => .error .valueError
    | some rs =>
      if 50 ≤ dims ∧ dims ≤ 300 then
        .ok { dimensions := dims, oov_init := oi, random_state := rs
              embedding := none, vocab := none, reverse_vocab := none }
      else .error .valueError

/-- The list comprehension `[float(val) for val in splitLine[1:]]`:
left to right, the first unparseable field raises `ValueError`. -/
def parseVals : List EmbField → Except PyError (List ℚ)
  | [] => .ok []
  | f :: fs =>
    match f.val with
    | none => .error .valueError
    | some q =>
      match parseVals fs with
      | .error e => .error e
      | .ok qs => .ok (q :: qs)

/-- numpy row assignment `self.embedding[i] = vec` against a row of width
`d`: an exact-width vector is stored as is, a length-1 vector broadcasts
(fills the row with its single value), any other length raises
`ValueError` (shape mismatch). -/
def broadcastRow (d : Nat) (v : List ℚ) : Except PyError (List ℚ) :=
  if v.length = d then .ok v
  else
    match v with
    | [q] => .ok (List.replicate d q)
    | _ => .error .valueError

/-- Placeholder content of a row of `np.empty`: the real values are
unspecified memory; no theorem below depends on an unwritten row. -/
def emptyVal : ℚ := 0

/-- The parsing loop of `WordEmbedding.load`, mutating the freshly reset
matrix and maps row by row; on an exception the partially filled values
are returned together with the error (the Python objects keep them). -/
def loadLoop (d : Nat) (emb : List (List ℚ)) (vocab : List (String × Nat))
    (rv : List (Nat × String)) (i : Nat) :
    List (List EmbField) →
      List (List ℚ) × List (String × Nat) × List (Nat × String) × Option PyError
  | [] => (emb, vocab, rv, none)
  | line :: rest =>
    match line with
    | [] => (emb, vocab, rv, some .indexError)
    | wf :: vfs =>
      match parseVals vfs with
      | .error e => (emb, vocab, rv, some e)
      | .ok vals =>
        match broadcastRow d vals with
        | .error e => (emb, vocab, rv, some e)
        | .ok row =>
          loadLoop d (emb.set i row) (dinsert vocab wf.str i)
            (dinsert rv i wf.str) (i + 1) rest

/-- `WordEmbedding.load(filepath)`: the file is modelled as its list of
whitespace-split lines.  First `self.embedding` is preallocated with one
row per line (`__count_lines` plus `np.empty`), `self.vocab` and
`self.reverse_vocab` are reset to empty dicts, then the lines are parsed
in order.  The returned pair is the state after the call together with
the exception, if one was raised: on failure the state keeps the
partially loaded maps, exactly as the mutated Python object does. -/
def load (s : WEState) (lines : List (List EmbField)) : WEState × Option PyError :=
  let emb0 := List.replicate lines.length (List.replicate s.dimensions emptyVal)
  match loadLoop s.dimensions emb0 [] [] 0 lines with
  | (emb, vocab, rv, err) =>
    ({ s with embedding := some emb, vocab := some vocab, reverse_vocab := some rv },
     err)

/-- One `uniform(-0.5, 0.5, d)` call of a fresh `default_rng()` generator:
`d` unit-interval draws from the entropy stream at cursor `p`, each mapped
into `[-1/2, 1/2)`. -/
def uniformVec (g : Nat → ℚ) (p d : Nat) : List ℚ :=
  (List.range d).map (fun j => -(1 / 2 : ℚ) + g (p + j))

/-- `uniform(-0.5, 0.5, size=(n, d))`: an `n × d` matrix of draws,
row-major. -/
def uniformMatrix (g : Nat → ℚ) (p n d : Nat) : List (List ℚ) :=
  (List.range n).map (fun i => uniformVec g (p + i * d) d)

/-- `WordEmbedding.get(word, include_oov)`.  The entropy stream cursor is
threaded through (`p` advances only when a random vector is drawn). -/
def get (s : WEState) (word : String) (include_oov : Bool) (g : Nat → ℚ) (p : Nat) :
    Except PyError (List ℚ × Nat) :=
  match s.vocab, s.embedding with
  | some vocab, some emb =>
    match dlookup vocab word with
    | some idx =>
      match emb[idx]? with
      | some row => .ok (row, p)
      | none => .error .indexError
    | none =>
      if s.oov_init = OovInit.rand ∧ include_oov then
        match s.random_state.defaultRng with
        | .error e => .error e
        | .ok _ => .ok (uniformVec g p s.dimensions, p + s.dimensions)
      else .ok (List.replicate s.dimensions 0, p)
  | _, _ => .error .runtimeError

/-- Result of `Tokenizer.create_weight_matrix`: either the pair
`(embedding_matrix, out_of_wordembedding)` (returned when
`return_not_in_wordembedding` is true) or the `word_embedding` argument
itself (what the code returns when the flag is false). -/
inductive CwmResult
  | pair (matrix : List (List ℚ)) (out_of_wordembedding : List String)
  | store (we : WEState)
deriving DecidableEq, Repr

/-- Initialisation of `embedding_matrix` in `create_weight_matrix`:
for `oov_init == 'rand'`, `random_state.default_rng().uniform(-0.5, 0.5,
size=(n_words+1, dimensions))` followed by `embedding_matrix[0] = zeros`;
for `'zero'`, an all-zero matrix. -/
def cwmMatrixInit (we : WEState) (n_words : Nat) (g : Nat → ℚ) (p : Nat) :
    Except PyError (List (List ℚ) × Nat) :=
  match we.oov_init with
  | .rand =>
    match we.random_state.defaultRng with
    | .error e => .error e
    | .ok _ =>
      .ok ((uniformMatrix g p (n_words + 1) we.dimensions).set 0
             (List.replicate we.dimensions 0),
           p + (n_words + 1) * we.dimensions)
  | .zero => .ok (List.replicate (n_words + 1) (List.replicate we.dimensions 0), p)

/-- The `for word, index in self.vocab.items()` loop of
`create_weight_matrix`: `word not in word_embedding.vocab` (a `TypeError`
when the store is unloaded, since `vocab` is `None`) appends the word to
the out-of-embedding list; then `embedding_matrix[index] =
word_embedding.get(word)` (an `IndexError` when `index` is out of range). -/
def cwmLoop (we : WEState) (g : Nat → ℚ) :
    List (String × Nat) → List (List ℚ) → List String → Nat →
      Except PyError (List (List ℚ) × List String × Nat)
  | [], m, outw, p => .ok (m, outw, p)
  | (word, index) :: rest, m, outw, p =>
    match we.vocab with
    | none => .error .typeError
    | some wv =>
      let outw2 := if (dlookup wv word).isSome then outw else outw ++ [word]
      match get we word true g p with
      | .error e => .error e
      | .ok (vec, p2) =>
        if index < m.length then cwmLoop we g rest (m.set index vec) outw2 p2
        else .error .indexError

/-- The computation shared by both return paths of
`Tokenizer.create_weight_matrix`: build the initial matrix, then run the
vocabulary loop. -/
def cwmCore (tok : TokState) (we : WEState) (g : Nat → ℚ) (p : Nat) :
    Except PyError (List (List ℚ) × List String × Nat) :=
  match cwmMatrixInit we tok.n_words g p with
  | .error e => .error e
  | .ok (m0, p1) => cwmLoop we g tok.vocab m0 [] p1

/-- `Tokenizer.create_weight_matrix(word_embedding,
return_not_in_wordembedding)`.  Note the source's return statement: when
the flag is true it returns `embedding_matrix, out_of_wordembedding`, but
when the flag is false it returns `word_embedding` - the store object,
not the computed matrix. -/
def create_weight_matrix (tok : TokState) (we : WEState)
    (return_not_in_wordembedding : Bool) (g : Nat → ℚ) (p : Nat) :
    Except PyError (CwmResult × Nat) :=
  match cwmCore tok we g p with
  | .error e => .error e
  | .ok (m, outw, p') =>
    .ok (if return_not_in_wordembedding then .pair m outw else .store we, p')

/-- Modelled from the spec's words (claim C4 refinement target), per token:
an in-vocabulary token contributes its lowercase form, an
out-of-vocabulary token contributes the OOV token's surface form when one
is configured and is dropped otherwise. -/
def specTokenMap (s : TokState) (tok : String) : Option String :=
  if (dlookup s.vocab (pyLower tok)).isSome then some (pyLower tok)
  else s.oov_token

/-- Modelled from the spec's words (claim C4 refinement target), per text:
the lowercase, whitespace-joined token stream of the text, modulo the
out-of-vocabulary treatment of `specTokenMap`. -/
def specRoundTripText (nlp : String → List String) (s : TokState) (text : String) :
    String :=
  String.intercalate " " ((nlp text).filterMap (specTokenMap s))

/-- Total number of tokens the pipeline produces across the texts of one
`fit` call. -/
def tokensInTexts (nlp : String → List String) (texts : List String) : Nat :=
  (texts.map (fun tx => (nlp tx).length)).sum

/-- Total number of tokens processed across a sequence of `fit` calls. -/
def tokensInBatches (nlp : String → List String) (batches : List (List String)) : Nat :=
  (batches.map (tokensInTexts nlp)).sum

/-- The shape of a tokenizer state fresh out of `Tokenizer.__init__`
(the `words_count` field is irrelevant to the vocabulary invariant). -/
def IsInitState (s : TokState) : Prop :=
  s.vocab = [] ∧ s.reverse_vocab = [] ∧
    s.n_words = (match s.oov_token with | some _ => 1 | none => 0)

/-- Vocabulary invariant of a tokenizer on which `fit` has run at least
once (also satisfied by an OOV-free fresh tokenizer): `n_words` counts the
vocabulary entries; the indices, read in dict insertion order (first-seen
order), are exactly `1, 2, ..., n_words`; words are unique;
`reverse_vocab` mirrors `vocab`; and a configured OOV token sits at
index 1. -/
structure TokInv (s : TokState) : Prop where
  nw : s.n_words = s.vocab.length
  idx : s.vocab.map Prod.snd = List.range' 1 s.vocab.length
  keys : (s.vocab.map Prod.fst).Nodup
  mirror : s.reverse_vocab = s.vocab.map (fun p => (p.2, p.1))
  oov : ∀ t, s.oov_token = some t → dlookup s.vocab t = some 1

/-- A one-token-per-text pipeline used by the concrete witnesses. -/
def nlpOne : String → List String := fun s => [s]

/-- A pipeline producing the text and a fixed second token, used to
exercise lowercasing and multi-token texts in witnesses. -/
def nlpTwo : String → List String := fun s => [s, "Dog"]

/-- A pipeline that always produces the single token `hello`. -/
def nlpHello : String → List String := fun _ => ["hello"]

/-- An all-zero entropy stream for concrete evaluations. -/
def gZero : Nat → ℚ := fun _ => 0

/-- Fresh 50-dimensional store, `oov_init='zero'`, default randomness:
the value of `WordEmbedding(50, 'zero', None)`. -/
def weFreshZero : WEState :=
  { dimensions := 50, oov_init := .zero, random_state := .moduleDefault
    embedding := none, vocab := none, reverse_vocab := none }

/-- Fresh 50-dimensional store with `oov_init='rand'`, default randomness. -/
def weFreshRand : WEState :=
  { dimensions := 50, oov_init := .rand, random_state := .moduleDefault
    embedding := none, vocab := none, reverse_vocab := none }

/-- Fresh 50-dimensional store with `oov_init='rand'` and
`random_state=42`: the value of `WordEmbedding(50, 'rand', 42)`. -/
def weFreshRandSeeded : WEState :=
  { dimensions := 50, oov_init := .rand, random_state := .seeded 42
    embedding := none, vocab := none, reverse_vocab := none }

/-- `weFreshRandSeeded` after loading an empty embedding file. -/
def weLoadedRandSeeded : WEState :=
  { dimensions := 50, oov_init := .rand, random_state := .seeded 42
    embedding := some [], vocab := some [], reverse_vocab := some [] }

/-- `weFreshZero` after loading an empty embedding file. -/
def weLoadedZero : WEState := (load weFreshZero []).1

/-- `weFreshRand` after loading an empty embedding file. -/
def weLoadedRand : WEState := (load weFreshRand []).1

/-- A tokenizer (no OOV token) fitted on one text that tokenizes to the
single token `hello`: vocabulary `hello ↦ 1`. -/
def tokHello : TokState := fit nlpHello (tokenizerInit none) ["x"]

/-- A well-formed 50-dimensional embedding-file line for the word `a`. -/
def goodLineA : List EmbField := fraw "a" :: List.replicate 50 (fnum "0" 0)

/-- A malformed line: the word `b` followed by one non-numeric field. -/
def badLineB : List EmbField := [fraw "b", fraw "x"]

/-- A file whose second line fails to parse. -/
def linesPartial : List (List EmbField) := [goodLineA, badLineB]

/-- A line with exactly one numeric field after the word: fewer than
`dimensions` fields, yet numpy broadcasting accepts it. -/
def lineOneNum : List EmbField := [fraw "w", fnum "0.5" (1 / 2)]

/-- A line with zero fields after the word (field count 0 ≠ dimensions). -/
def lineNoVals : List EmbField := [fraw "w"]

/-- Bool-valued test for a line that makes `WordEmbedding.load` raise:
empty line (`splitLine[0]` fails), a non-numeric field after the word
(`float` fails), or a numeric field count that is neither `dimensions`
nor 1 (numpy shape mismatch on row assignment). -/
def malformedLine (d : Nat) (line : List EmbField) : Bool :=
  line.isEmpty || line.tail.any (fun f => f.val.isNone) ||
    (decide (line.tail.length ≠ d) && decide (line.tail.length ≠ 1))

/-- The matrix produced by `cwmCore tokHello weLoadedZero`:
padding row plus one row for `hello`, all zeros under `oov_init='zero'`. -/
def matZero2x50 : List (List ℚ) :=
  List.replicate 2 (List.replicate 50 0)

section DictLemmas

variable {α β : Type} [DecidableEq α]

theorem dlookup_dinsert_self (d : List (α × β)) (k : α) (v : β) :
    dlookup (dinsert d k v) k = some v := by
  induction d with
  | nil => simp [dinsert, dlookup]
  | cons p rest ih =>
    by_cases h : p.1 = k <;> simp [dinsert, dlookup, h, ih]

theorem dlookup_dinsert_ne (d : List (α × β)) {k a : α} (v : β) (h : k ≠ a) :
    dlookup (dinsert d k v) a = dlookup d a := by
  induction d with
  | nil => simp [dinsert, dlookup, h]
  | cons p rest ih =>
    by_cases hp : p.1 = k
    · simp [dinsert, dlookup, hp, h]
    · simp only [dinsert, hp, if_false, dlookup]
      by_cases hpa : p.1 = a <;> simp [hpa, ih]

theorem dinsert_of_dlookup_eq {d : List (α × β)} {k : α} {v : β}
    (h : dlookup d k = some v) : dinsert d k v = d := by
  induction d with
  | nil => simp [dlookup] at h
  | cons p rest ih =>
    by_cases hp : p.1 = k
    · simp only [dlookup, hp, if_true, Option.some.injEq] at h
      have hpk : p = (k, v) := Prod.ext hp h
      simp [dinsert, hp, hpk]
    · simp only [dlookup, hp, if_false] at h
      simp [dinsert, hp, ih h]

theorem dinsert_of_dlookup_none {d : List (α × β)} {k : α} (v : β)
    (h : dlookup d k = none) : dinsert d k v = d ++ [(k, v)] := by
  induction d with
  | nil => simp [dinsert]
  | cons p rest ih =>
    by_cases hp : p.1 = k
    · simp [dlookup, hp] at h
    · simp [dlookup, hp] at h
      simp [dinsert, hp, ih h]

theorem dlookup_append_of_some {d : List (α × β)} {a : α} {v : β}
    (e : List (α × β)) (h : dlookup d a = some v) :
    dlookup (d ++ e) a = some v := by
  induction d with
  | nil => simp [dlookup] at h
  | cons p rest ih =>
    by_cases hp : p.1 = a
    · simp [dlookup, hp] at h ⊢; exact h
    · simp [dlookup, hp] at h ⊢; exact ih h

theorem dlookup_none_iff {d : List (α × β)} {a : α} :
    dlookup d a = none ↔ a ∉ d.map Prod.fst := by
  induction d with
  | nil => simp [dlookup]
  | cons p rest ih =>
    by_cases hp : p.1 = a
    · simp [dlookup, hp]
    · simp only [dlookup, hp, if_false, List.map_cons, List.mem_cons, ih]
      constructor
      · rintro hn (hc | hc)
        · exact hp hc.symm
        · exact hn hc
      · exact fun hn hc => hn (.inr hc)

theorem mem_of_dlookup {d : List (α × β)} {a : α} {v : β}
    (h : dlookup d a = some v) : (a, v) ∈ d := by
  induction d with
  | nil => simp [dlookup] at h
  | cons p rest ih =>
    by_cases hp : p.1 = a
    · simp only [dlookup, hp, if_true, Option.some.injEq] at h
      have hpk : p = (a, v) := Prod.ext hp h
      rw [hpk]
      exact List.mem_cons_self _ _
    · simp only [dlookup, hp, if_false] at h
      exact List.mem_cons_of_mem _ (ih h)

theorem dlookup_swap {d : List (α × β)} [DecidableEq β] {a : α} {v : β}
    (hnd : (d.map Prod.snd).Nodup) (h : dlookup d a = some v) :
    dlookup (d.map (fun p => (p.2, p.1))) v = some a := by
  induction d with
  | nil => simp [dlookup] at h
  | cons p rest ih =>
    simp only [List.map_cons, List.nodup_cons] at hnd
    by_cases hp : p.1 = a
    · simp [dlookup, hp] at h
      simp [dlookup, h, hp]
    · simp only [dlookup, hp, if_false] at h
      have hv : v ∈ rest.map Prod.snd :=
        List.mem_map_of_mem Prod.snd (mem_of_dlookup h)
      have hne : p.2 ≠ v := fun hc => hnd.1 (hc ▸ hv)
      simp [List.map_cons, dlookup, hne, ih hnd.2 h]

omit [DecidableEq α] in
theorem snd_nodup_unique {d : List (α × β)} {a b : α} {v : β}
    (hnd : (d.map Prod.snd).Nodup) (ha : (a, v) ∈ d) (hb : (b, v) ∈ d) :
    a = b := by
  induction d with
  | nil => simp at ha
  | cons p rest ih =>
    simp only [List.map_cons, List.nodup_cons] at hnd
    rcases List.mem_cons.1 ha with ha' | ha' <;>
      rcases List.mem_cons.1 hb with hb' | hb'
    · exact congrArg Prod.fst (ha'.trans hb'.symm)
    · exfalso
      have hv : v = p.2 := congrArg Prod.snd ha'
      exact hnd.1 (hv ▸ List.mem_map_of_mem Prod.snd hb')
    · exfalso
      have hv : v = p.2 := congrArg Prod.snd hb'
      exact hnd.1 (hv ▸ List.mem_map_of_mem Prod.snd ha')
    · exact ih hnd.2 ha' hb'

theorem sumVals_dinsert_incr {d : List (α × Nat)} {k : α} {c : Nat}
    (h : dlookup d k = some c) : sumVals (dinsert d k (c + 1)) = sumVals d + 1 := by
  induction d with
  | nil => simp [dlookup] at h
  | cons p rest ih =>
    by_cases hp : p.1 = k
    · simp [dlookup, hp] at h
      simp [dinsert, hp, sumVals, h]
      omega
    · simp [dlookup, hp] at h
      simp [dinsert, hp, sumVals] at ih ⊢
      have := ih h
      omega

theorem sumVals_dinsert_new {d : List (α × Nat)} {k : α} (v : Nat)
    (h : dlookup d k = none) : sumVals (dinsert d k v) = sumVals d + v := by
  rw [dinsert_of_dlookup_none v h]
  simp [sumVals]

end DictLemmas

section TokenizerLemmas

theorem countStep_vocab (s : TokState) (w : String) : (countStep s w).vocab = s.vocab := by
  cases h : dlookup s.words_count w <;> simp [countStep, h]

theorem countStep_reverse_vocab (s : TokState) (w : String) :
    (countStep s w).reverse_vocab = s.reverse_vocab := by
  cases h : dlookup s.words_count w <;> simp [countStep, h]

theorem countStep_n_words (s : TokState) (w : String) :
    (countStep s w).n_words = s.n_words := by
  cases h : dlookup s.words_count w <;> simp [countStep, h]

theorem countStep_oov_token (s : TokState) (w : String) :
    (countStep s w).oov_token = s.oov_token := by
  cases h : dlookup s.words_count w <;> simp [countStep, h]

theorem vocabStep_oov_token (s : TokState) (w : String) :
    (vocabStep s w).oov_token = s.oov_token := by
  unfold vocabStep
  split <;> rfl

theorem vocabStep_words_count (s : TokState) (w : String) :
    (vocabStep s w).words_count = s.words_count := by
  unfold vocabStep
  split <;> rfl

theorem fitToken_oov_token (s : TokState) (tok : String) :
    (fitToken s tok).oov_token = s.oov_token := by
  unfold fitToken
  rw [countStep_oov_token, vocabStep_oov_token]

theorem foldTokens_oov_token (toks : List String) (s : TokState) :
    (toks.foldl fitToken s).oov_token = s.oov_token := by
  induction toks generalizing s with
  | nil => rfl
  | cons t ts ih => rw [List.foldl_cons, ih, fitToken_oov_token]

theorem fitText_oov_token (nlp : String → List String) (s : TokState) (tx : String) :
    (fitText nlp s tx).oov_token = s.oov_token := foldTokens_oov_token _ _

theorem foldTexts_oov_token (nlp : String → List String) (texts : List String)
    (s : TokState) : (texts.foldl (fitText nlp) s).oov_token = s.oov_token := by
  induction texts generalizing s with
  | nil => rfl
  | cons t ts ih => rw [List.foldl_cons, ih, fitText_oov_token]

theorem registerOov_oov_token (s : TokState) : (registerOov s).oov_token = s.oov_token := by
  unfold registerOov
  split <;> rfl

theorem fit_oov_token (nlp : String → List String) (s : TokState) (texts : List String) :
    (fit nlp s texts).oov_token = s.oov_token := by
  unfold fit
  rw [foldTexts_oov_token, registerOov_oov_token]

theorem fitAll_oov_token (nlp : String → List String) (batches : List (List String))
    (s : TokState) : (fitAll nlp s batches).oov_token = s.oov_token := by
  induction batches generalizing s with
  | nil => rfl
  | cons b bs ih =>
    show (fitAll nlp (fit nlp s b) bs).oov_token = s.oov_token
    rw [ih, fit_oov_token]

theorem tokInv_countStep {s : TokState} (h : TokInv s) (w : String) :
    TokInv (countStep s w) := by
  refine ⟨?_, ?_, ?_, ?_, ?_⟩ <;>
    rw [countStep_vocab] <;>
    try rw [countStep_n_words]
  · exact h.nw
  · exact h.idx
  · exact h.keys
  · rw [countStep_reverse_vocab]; exact h.mirror
  · rw [countStep_oov_token]; exact h.oov

theorem range'_one_concat (n : Nat) :
    List.range' 1 (n + 1) = List.range' 1 n ++ [n + 1] := by
  rw [List.range'_concat]
  simp [Nat.add_comm]

theorem tokInv_vocabStep {s : TokState} (h : TokInv s) (w : String) :
    TokInv (vocabStep s w) := by
  obtain ⟨o, n, v, r, wc⟩ := s
  cases hwn : dlookup v w with
  | some i =>
    unfold vocabStep
    rw [show (TokState.mk o n v r wc).vocab = v from rfl, hwn]
    exact h
  | none =>
    have hnw : n = v.length := h.nw
    have hins : dinsert v w (n + 1) = v ++ [(w, n + 1)] :=
      dinsert_of_dlookup_none _ hwn
    have hrvkeys : dlookup r (n + 1) = none := by
      have hm : r = v.map (fun p => (p.2, p.1)) := h.mirror
      rw [dlookup_none_iff, hm]
      intro hc
      rw [List.map_map] at hc
      have hmem : n + 1 ∈ v.map Prod.snd := by
        have hfun : (Prod.fst ∘ fun p : String × Nat => (p.2, p.1)) = Prod.snd := rfl
        rw [← hfun]
        exact hc
      have hidx : v.map Prod.snd = List.range' 1 v.length := h.idx
      rw [hidx] at hmem
      have := List.mem_range'_1.1 hmem
      omega
    have hrins : dinsert r (n + 1) w = r ++ [(n + 1, w)] :=
      dinsert_of_dlookup_none _ hrvkeys
    unfold vocabStep
    rw [show (TokState.mk o n v r wc).vocab = v from rfl, hwn]
    simp only [Option.isSome_none, Bool.false_eq_true, if_false]
    refine ⟨?_, ?_, ?_, ?_, ?_⟩
    · show n + 1 = (dinsert v w (n + 1)).length
      rw [hins, List.length_append]
      simp [hnw]
    · show (dinsert v w (n + 1)).map Prod.snd = List.range' 1 (dinsert v w (n + 1)).length
      rw [hins, List.length_append, List.map_append]
      simp only [List.map_cons, List.map_nil, List.length_cons, List.length_nil]
      have hidx := h.idx
      rw [show v.length + (0 + 1) = v.length + 1 by omega, range'_one_concat, hidx, hnw]
    · show ((dinsert v w (n + 1)).map Prod.fst).Nodup
      rw [hins, List.map_append]
      rw [List.nodup_append]
      refine ⟨h.keys, List.nodup_singleton _, ?_⟩
      intro a ha hb
      simp at hb
      rw [hb] at ha
      exact (dlookup_none_iff.1 hwn) ha
    · show dinsert r (n + 1) w = (dinsert v w (n + 1)).map (fun p => (p.2, p.1))
      rw [hins, hrins, List.map_append]
      have hm := h.mirror
      simp only at hm
      rw [hm]
      rfl
    · intro t ht
      have h1 : dlookup v t = some 1 := h.oov t ht
      show dlookup (dinsert v w (n + 1)) t = some 1
      rw [hins]
      exact dlookup_append_of_some _ h1

theorem tokInv_fitToken {s : TokState} (h : TokInv s) (tok : String) :
    TokInv (fitToken s tok) :=
  tokInv_countStep (tokInv_vocabStep h _) _

theorem tokInv_foldTokens {s : TokState} (h : TokInv s) (toks : List String) :
    TokInv (toks.foldl fitToken s) := by
  induction toks generalizing s with
  | nil => exact h
  | cons t ts ih => exact ih (tokInv_fitToken h t)

theorem tokInv_fitText {s : TokState} (h : TokInv s) (nlp : String → List String)
    (tx : String) : TokInv (fitText nlp s tx) :=
  tokInv_foldTokens h _

theorem tokInv_foldTexts {s : TokState} (h : TokInv s) (nlp : String → List String)
    (texts : List String) : TokInv (texts.foldl (fitText nlp) s) := by
  induction texts generalizing s with
  | nil => exact h
  | cons t ts ih => exact ih (tokInv_fitText h nlp t)

theorem tokInv_sortStep {s : TokState} (h : TokInv s) (wc : List (String × Nat)) :
    TokInv { s with words_count := wc } :=
  ⟨h.nw, h.idx, h.keys, h.mirror, h.oov⟩

theorem snd_nodup_of_inv {s : TokState} (h : TokInv s) :
    (s.vocab.map Prod.snd).Nodup := by
  rw [h.idx]
  exact List.nodup_range' _ _

theorem rv_lookup_of_inv {s : TokState} (h : TokInv s) {w : String} {i : Nat}
    (hl : dlookup s.vocab w = some i) : dlookup s.reverse_vocab i = some w := by
  rw [h.mirror]
  exact dlookup_swap (snd_nodup_of_inv h) hl

theorem registerOov_of_inv {s : TokState} (h : TokInv s) : registerOov s = s := by
  obtain ⟨o, n, v, r, wc⟩ := s
  cases ht : o with
  | none => subst ht; rfl
  | some t =>
    subst ht
    have h1 : dlookup v t = some 1 := h.oov t rfl
    have h2 : dlookup r 1 = some t := rv_lookup_of_inv h h1
    show TokState.mk (some t) n (dinsert v t 1) (dinsert r 1 t) wc = TokState.mk (some t) n v r wc
    rw [dinsert_of_dlookup_eq h1, dinsert_of_dlookup_eq h2]

theorem tokInv_registerOov_of_init {s : TokState} (h : IsInitState s) :
    TokInv (registerOov s) := by
  obtain ⟨o, n, v, r, wc⟩ := s
  obtain ⟨hv, hr, hn⟩ := h
  simp only at hv hr hn
  subst hv hr
  cases o with
  | none =>
    subst hn
    exact ⟨rfl, rfl, List.nodup_nil, rfl, fun t hc => by
      rw [registerOov_oov_token] at hc
      exact Option.noConfusion hc⟩
  | some t =>
    subst hn
    show TokInv (TokState.mk (some t) 1 (dinsert [] t 1) (dinsert [] 1 t) wc)
    refine ⟨rfl, rfl, ?_, rfl, ?_⟩
    · show ((dinsert ([] : List (String × Nat)) t 1).map Prod.fst).Nodup
      simp [dinsert]
    · intro u hu
      simp only at hu
      cases hu
      simp [dinsert, dlookup]

theorem tokInv_fit_of_pre {s : TokState} (h : IsInitState s ∨ TokInv s)
    (nlp : String → List String) (texts : List String) : TokInv (fit nlp s texts) := by
  have hreg : TokInv (registerOov s) := by
    rcases h with h | h
    · exact tokInv_registerOov_of_init h
    · rw [registerOov_of_inv h]; exact h
  exact tokInv_sortStep (tokInv_foldTexts hreg nlp texts) _

theorem tokInv_fit {s : TokState} (h : TokInv s) (nlp : String → List String)
    (texts : List String) : TokInv (fit nlp s texts) :=
  tokInv_fit_of_pre (.inr h) nlp texts

theorem tokInv_fitAll {s : TokState} (h : TokInv s) (nlp : String → List String)
    (batches : List (List String)) : TokInv (fitAll nlp s batches) := by
  induction batches generalizing s with
  | nil => exact h
  | cons b bs ih => exact ih (tokInv_fit h nlp b)

theorem isInitState_init (oov : Option String) : IsInitState (tokenizerInit oov) := by
  refine ⟨rfl, rfl, ?_⟩
  cases oov <;> rfl

theorem tokInv_fitAll_init {nlp : String → List String} {oov : Option String}
    {batches : List (List String)} (hb : batches ≠ []) :
    TokInv (fitAll nlp (tokenizerInit oov) batches) := by
  cases batches with
  | nil => exact absurd rfl hb
  | cons b bs =>
    show TokInv (fitAll nlp (fit nlp (tokenizerInit oov) b) bs)
    exact tokInv_fitAll (tokInv_fit_of_pre (.inl (isInitState_init oov)) nlp b) nlp bs

theorem dlookup_vocabStep_mono {s : TokState} {a : String} {i : Nat}
    (h : dlookup s.vocab a = some i) (w : String) :
    dlookup (vocabStep s w).vocab a = some i := by
  unfold vocabStep
  cases hwn : dlookup s.vocab w with
  | some j =>
    simp only [Option.isSome_some, if_true]
    exact h
  | none =>
    simp only [Option.isSome_none, Bool.false_eq_true, if_false]
    show dlookup (dinsert s.vocab w (s.n_words + 1)) a = some i
    rw [dinsert_of_dlookup_none _ hwn]
    exact dlookup_append_of_some _ h

theorem dlookup_fitToken_mono {s : TokState} {a : String} {i : Nat}
    (h : dlookup s.vocab a = some i) (tok : String) :
    dlookup (fitToken s tok).vocab a = some i := by
  unfold fitToken
  rw [countStep_vocab]
  exact dlookup_vocabStep_mono h _

theorem dlookup_foldTokens_mono {a : String} {i : Nat} (toks : List String)
    (s : TokState) (h : dlookup s.vocab a = some i) :
    dlookup ((toks.foldl fitToken s).vocab) a = some i := by
  induction toks generalizing s with
  | nil => exact h
  | cons t ts ih => exact ih _ (dlookup_fitToken_mono h t)

theorem dlookup_foldTexts_mono {a : String} {i : Nat} (nlp : String → List String)
    (texts : List String) (s : TokState) (h : dlookup s.vocab a = some i) :
    dlookup ((texts.foldl (fitText nlp) s).vocab) a = some i := by
  induction texts generalizing s with
  | nil => exact h
  | cons t ts ih => exact ih _ (dlookup_foldTokens_mono _ _ h)

theorem dlookup_fit_mono {s : TokState} {a : String} {i : Nat} (hInv : TokInv s)
    (nlp : String → List String) (texts : List String)
    (h : dlookup s.vocab a = some i) :
    dlookup ((fit nlp s texts).vocab) a = some i := by
  unfold fit
  show dlookup ((texts.foldl (fitText nlp) (registerOov s)).vocab) a = some i
  rw [registerOov_of_inv hInv]
  exact dlookup_foldTexts_mono nlp texts s h

theorem dlookup_fitAll_mono {s : TokState} {a : String} {i : Nat} (hInv : TokInv s)
    (nlp : String → List String) (batches : List (List String))
    (h : dlookup s.vocab a = some i) :
    dlookup ((fitAll nlp s batches).vocab) a = some i := by
  induction batches generalizing s with
  | nil => exact h
  | cons b bs ih =>
    exact ih (tokInv_fit hInv nlp b) (dlookup_fit_mono hInv nlp b h)

theorem fitToken_lookup_self (s : TokState) (tok : String) :
    (dlookup (fitToken s tok).vocab (pyLower tok)).isSome := by
  unfold fitToken
  rw [countStep_vocab]
  unfold vocabStep
  cases hwn : dlookup s.vocab (pyLower tok) with
  | some j =>
    simp only [Option.isSome_some, if_true]
    simp [hwn]
  | none =>
    simp only [Option.isSome_none, Bool.false_eq_true, if_false]
    show (dlookup (dinsert s.vocab (pyLower tok) (s.n_words + 1)) (pyLower tok)).isSome = true
    rw [dlookup_dinsert_self]
    rfl

theorem foldTokens_coverage (toks : List String) (s : TokState) :
    ∀ tok ∈ toks, (dlookup ((toks.foldl fitToken s).vocab) (pyLower tok)).isSome := by
  induction toks generalizing s with
  | nil => intro tok hc; simp at hc
  | cons t ts ih =>
    intro tok htok
    rcases List.mem_cons.1 htok with h | h
    · subst h
      rw [List.foldl_cons]
      have hs := fitToken_lookup_self s tok
      obtain ⟨i, hi⟩ := Option.isSome_iff_exists.1 hs
      rw [dlookup_foldTokens_mono ts _ hi]
      rfl
    · exact ih _ tok h

theorem foldTexts_coverage (nlp : String → List String) (texts : List String)
    (s : TokState) :
    ∀ tx ∈ texts, ∀ tok ∈ nlp tx,
      (dlookup ((texts.foldl (fitText nlp) s).vocab) (pyLower tok)).isSome := by
  induction texts generalizing s with
  | nil => intro tx hc; simp at hc
  | cons t ts ih =>
    intro tx htx tok htok
    rcases List.mem_cons.1 htx with h | h
    · subst h
      rw [List.foldl_cons]
      have hs : (dlookup ((fitText nlp s tx).vocab) (pyLower tok)).isSome :=
        foldTokens_coverage (nlp tx) s tok htok
      obtain ⟨i, hi⟩ := Option.isSome_iff_exists.1 hs
      rw [dlookup_foldTexts_mono nlp ts _ hi]
      rfl
    · exact ih _ tx h tok htok

theorem fit_coverage (nlp : String → List String) (s : TokState) (texts : List String) :
    ∀ tx ∈ texts, ∀ tok ∈ nlp tx,
      (dlookup ((fit nlp s texts).vocab) (pyLower tok)).isSome := by
  intro tx htx tok htok
  show (dlookup ((texts.foldl (fitText nlp) (registerOov s)).vocab) (pyLower tok)).isSome
  exact foldTexts_coverage nlp texts (registerOov s) tx htx tok htok

theorem fitAll_coverage (nlp : String → List String) (batches : List (List String))
    (s : TokState) (hpre : IsInitState s ∨ TokInv s) :
    ∀ b ∈ batches, ∀ tx ∈ b, ∀ tok ∈ nlp tx,
      (dlookup ((fitAll nlp s batches).vocab) (pyLower tok)).isSome := by
  induction batches generalizing s with
  | nil => intro b hc; simp at hc
  | cons b0 bs ih =>
    intro b hb tx htx tok htok
    have hInv1 : TokInv (fit nlp s b0) := tokInv_fit_of_pre hpre nlp b0
    rcases List.mem_cons.1 hb with h | h
    · subst h
      have hs := fit_coverage nlp s b tx htx tok htok
      obtain ⟨i, hi⟩ := Option.isSome_iff_exists.1 hs
      show (dlookup ((fitAll nlp (fit nlp s b) bs).vocab) (pyLower tok)).isSome
      rw [dlookup_fitAll_mono hInv1 nlp bs hi]
      rfl
    · exact ih (fit nlp s b0) (.inr hInv1) b h tx htx tok htok

theorem sumVals_countStep (s : TokState) (w : String) :
    sumVals (countStep s w).words_count = sumVals s.words_count + 1 := by
  unfold countStep
  cases h : dlookup s.words_count w with
  | none =>
    show sumVals (dinsert s.words_count w 1) = sumVals s.words_count + 1
    rw [sumVals_dinsert_new 1 h]
  | some c =>
    show sumVals (dinsert s.words_count w (c + 1)) = sumVals s.words_count + 1
    exact sumVals_dinsert_incr h

theorem sumVals_fitToken (s : TokState) (tok : String) :
    sumVals (fitToken s tok).words_count = sumVals s.words_count + 1 := by
  unfold fitToken
  rw [sumVals_countStep, vocabStep_words_count]

theorem sumVals_foldTokens (toks : List String) (s : TokState) :
    sumVals ((toks.foldl fitToken s).words_count) =
      sumVals s.words_count + toks.length := by
  induction toks generalizing s with
  | nil => rfl
  | cons t ts ih =>
    rw [List.foldl_cons, ih, sumVals_fitToken, List.length_cons]
    omega

theorem sumVals_fitText (nlp : String → List String) (s : TokState) (tx : String) :
    sumVals ((fitText nlp s tx).words_count) =
      sumVals s.words_count + (nlp tx).length :=
  sumVals_foldTokens _ _

theorem sumVals_foldTexts (nlp : String → List String) (texts : List String)
    (s : TokState) :
    sumVals ((texts.foldl (fitText nlp) s).words_count) =
      sumVals s.words_count + tokensInTexts nlp texts := by
  induction texts generalizing s with
  | nil => simp [tokensInTexts]
  | cons t ts ih =>
    rw [List.foldl_cons, ih, sumVals_fitText]
    simp [tokensInTexts]
    omega

theorem registerOov_words_count (s : TokState) :
    (registerOov s).words_count = s.words_count := by
  unfold registerOov
  split <;> rfl

theorem sumVals_insertDesc (x : String × Nat) (l : List (String × Nat)) :
    sumVals (insertDesc x l) = x.2 + sumVals l := by
  induction l with
  | nil => simp [insertDesc, sumVals]
  | cons y ys ih =>
    unfold insertDesc
    by_cases h : y.2 < x.2
    · simp [h, sumVals]
    · simp only [h, if_false]
      simp only [sumVals, List.map_cons, List.sum_cons] at ih ⊢
      omega

theorem sumVals_sortByCountDesc (l : List (String × Nat)) :
    sumVals (sortByCountDesc l) = sumVals l := by
  induction l with
  | nil => rfl
  | cons x xs ih =>
    unfold sortByCountDesc
    rw [sumVals_insertDesc, ih]
    simp [sumVals]

theorem sumVals_fit (nlp : String → List String) (s : TokState) (texts : List String) :
    sumVals ((fit nlp s texts).words_count) =
      sumVals s.words_count + tokensInTexts nlp texts := by
  unfold fit
  show sumVals (sortByCountDesc ((texts.foldl (fitText nlp) (registerOov s)).words_count)) = _
  rw [sumVals_sortByCountDesc, sumVals_foldTexts, registerOov_words_count]

theorem sumVals_fitAll (nlp : String → List String) (batches : List (List String))
    (s : TokState) :
    sumVals ((fitAll nlp s batches).words_count) =
      sumVals s.words_count + tokensInBatches nlp batches := by
  induction batches generalizing s with
  | nil => simp [tokensInBatches, fitAll]
  | cons b bs ih =>
    show sumVals ((fitAll nlp (fit nlp s b) bs).words_count) = _
    rw [ih, sumVals_fit]
    simp [tokensInBatches]
    omega

theorem seqOfTokens_roundtrip {s : TokState} (hInv : TokInv s) (toks : List String) :
    ∃ idxs, seqOfTokens s toks = .ok idxs ∧
      wordsOfSequence s idxs = toks.filterMap (specTokenMap s) := by
  induction toks with
  | nil => exact ⟨[], rfl, rfl⟩
  | cons t ts ih =>
    obtain ⟨idxs, h1, h2⟩ := ih
    cases hl : dlookup s.vocab (pyLower t) with
    | some i =>
      refine ⟨i :: idxs, ?_, ?_⟩
      · unfold seqOfTokens
        rw [hl, h1]
      · unfold wordsOfSequence
        rw [rv_lookup_of_inv hInv hl, h2, List.filterMap_cons]
        simp [specTokenMap, hl]
    | none =>
      cases ho : s.oov_token with
      | none =>
        refine ⟨idxs, ?_, ?_⟩
        · unfold seqOfTokens
          rw [hl, ho, h1]
        · rw [h2, List.filterMap_cons]
          simp [specTokenMap, hl, ho]
      | some ot =>
        have hot : dlookup s.vocab ot = some 1 := hInv.oov ot ho
        refine ⟨1 :: idxs, ?_, ?_⟩
        · show seqOfTokens s (t :: ts) = Except.ok (1 :: idxs)
          simp only [seqOfTokens, hl, ho, hot, h1]
        · unfold wordsOfSequence
          rw [rv_lookup_of_inv hInv hot, h2, List.filterMap_cons]
          simp [specTokenMap, hl, ho]

theorem roundTrip_of_inv {s : TokState} (hInv : TokInv s) (nlp : String → List String)
    (texts : List String) :
    (texts_to_sequences nlp s texts).map (sequences_to_texts s) =
      .ok (texts.map (specRoundTripText nlp s)) := by
  induction texts with
  | nil => rfl
  | cons tx rest ih =>
    obtain ⟨idxs, h1, h2⟩ := seqOfTokens_roundtrip hInv (nlp tx)
    cases htts : texts_to_sequences nlp s rest with
    | error e =>
      rw [htts] at ih
      simp [Except.map] at ih
    | ok rs =>
      rw [htts] at ih
      simp only [Except.map, List.map_cons] at ih ⊢
      unfold texts_to_sequences
      rw [h1, htts]
      simp only [Except.map]
      have hih : sequences_to_texts s rs = rest.map (specRoundTripText nlp s) :=
        Except.ok.injEq _ _ ▸ ih
      unfold sequences_to_texts at hih ⊢
      simp only [List.map_cons, h2, hih]
      rfl

end TokenizerLemmas

section WordEmbeddingLemmas

theorem wordEmbeddingInit_unloaded {d : Nat} {oovArg : String} {rsArg : RandomStateArg}
    {s : WEState} (h : wordEmbeddingInit d oovArg rsArg = .ok s) :
    s.vocab = none ∧ s.embedding = none := by
  unfold wordEmbeddingInit at h
  split at h
  · exact absurd h (by simp)
  · split at h
    · exact absurd h (by simp)
    · split at h
      · injection h with h2
        rw [← h2]
        exact ⟨rfl, rfl⟩
      · exact absurd h (by simp)

theorem get_of_vocab_none {s : WEState} (hv : s.vocab = none) (w : String)
    (inc : Bool) (g : Nat → ℚ) (p : Nat) : get s w inc g p = .error .runtimeError := by
  unfold get
  rw [hv]

theorem load_discards_prior (s t : WEState) (lines : List (List EmbField))
    (h1 : s.dimensions = t.dimensions) (h2 : s.oov_init = t.oov_init)
    (h3 : s.random_state = t.random_state) : load s lines = load t lines := by
  obtain ⟨ds, os, rs, es, vs, rvs⟩ := s
  obtain ⟨dt, ot, rt, et, vt, rvt⟩ := t
  simp only at h1 h2 h3
  subst h1
  subst h2
  subst h3
  rfl

theorem parseVals_error_of_isNone {vfs : List EmbField}
    (h : vfs.any (fun f => f.val.isNone) = true) : ∃ e, parseVals vfs = .error e := by
  induction vfs with
  | nil => simp at h
  | cons f fs ih =>
    cases hv : f.val with
    | none => exact ⟨.valueError, by simp [parseVals, hv]⟩
    | some q =>
      have hfs : fs.any (fun f => f.val.isNone) = true := by
        simp only [List.any_cons, hv, Option.isNone_some, Bool.false_or] at h
        exact h
      obtain ⟨e, he⟩ := ih hfs
      exact ⟨e, by simp [parseVals, hv, he]⟩

theorem parseVals_ok_of_all {vfs : List EmbField}
    (h : ∀ f ∈ vfs, f.val.isSome) :
    ∃ vs, parseVals vfs = .ok vs ∧ vs.length = vfs.length := by
  induction vfs with
  | nil => exact ⟨[], rfl, rfl⟩
  | cons f fs ih =>
    have hf : f.val.isSome := h f (List.mem_cons_self _ _)
    obtain ⟨q, hq⟩ := Option.isSome_iff_exists.1 hf
    obtain ⟨vs, hvs, hlen⟩ := ih (fun f2 hf2 => h f2 (List.mem_cons_of_mem _ hf2))
    refine ⟨q :: vs, ?_, by simp [hlen]⟩
    simp [parseVals, hq, hvs]

theorem parseVals_length {vfs : List EmbField} {vs : List ℚ}
    (h : parseVals vfs = .ok vs) : vs.length = vfs.length := by
  induction vfs generalizing vs with
  | nil =>
    unfold parseVals at h
    injection h with h2
    rw [← h2]
    rfl
  | cons f fs ih =>
    unfold parseVals at h
    cases hv : f.val with
    | none => rw [hv] at h; exact absurd h (by simp)
    | some q =>
      rw [hv] at h
      cases hp : parseVals fs with
      | error e => rw [hp] at h; exact absurd h (by simp)
      | ok qs =>
        rw [hp] at h
        injection h with h2
        rw [← h2, List.length_cons, ih hp, List.length_cons]

theorem broadcastRow_error {d : Nat} {v : List ℚ} (h1 : v.length ≠ d)
    (h2 : v.length ≠ 1) : broadcastRow d v = .error .valueError := by
  unfold broadcastRow
  rw [if_neg h1]
  cases v with
  | nil => rfl
  | cons q qs =>
    cases qs with
    | nil => exact absurd rfl h2
    | cons q2 qs2 => rfl

theorem broadcastRow_ok {d : Nat} {v : List ℚ} (h : v.length = d ∨ v.length = 1) :
    ∃ r, broadcastRow d v = .ok r := by
  unfold broadcastRow
  by_cases hd : v.length = d
  · exact ⟨v, by rw [if_pos hd]⟩
  · rcases h with h | h
    · exact absurd h hd
    · rw [if_neg hd]
      cases v with
      | nil => simp at h
      | cons q qs =>
        cases qs with
        | nil => exact ⟨List.replicate d q, rfl⟩
        | cons q2 qs2 => simp at h

theorem broadcastRow_ok_length {d : Nat} {v r : List ℚ}
    (h : broadcastRow d v = .ok r) : v.length = d ∨ v.length = 1 := by
  by_cases hd : v.length = d
  · exact .inl hd
  · by_cases h1 : v.length = 1
    · exact .inr h1
    · rw [broadcastRow_error hd h1] at h
      exact absurd h (by simp)

theorem loadLoop_err_of_malformed (d : Nat) (lines : List (List EmbField))
    (h : lines.any (malformedLine d) = true) :
    ∀ emb vocab rv i, ((loadLoop d emb vocab rv i lines).2.2.2).isSome = true := by
  induction lines with
  | nil => simp at h
  | cons line rest ih =>
    intro emb vocab rv i
    cases line with
    | nil => rfl
    | cons wf vfs =>
      show ((match parseVals vfs with
        | .error e => (emb, vocab, rv, some e)
        | .ok vals =>
          match broadcastRow d vals with
          | .error e => (emb, vocab, rv, some e)
          | .ok row =>
            loadLoop d (emb.set i row) (dinsert vocab wf.str i)
              (dinsert rv i wf.str) (i + 1) rest).2.2.2).isSome = true
      cases hp : parseVals vfs with
      | error e => rfl
      | ok vals =>
        cases hb : broadcastRow d vals with
        | error e => simp [hb]
        | ok row =>
          have hnm : malformedLine d (wf :: vfs) = false := by
            have hnone : vfs.any (fun f => f.val.isNone) = false := by
              by_contra hc
              have hc2 : vfs.any (fun f => f.val.isNone) = true := by
                revert hc
                cases vfs.any (fun f => f.val.isNone) <;> simp
              obtain ⟨e, he⟩ := parseVals_error_of_isNone hc2
              rw [he] at hp
              exact absurd hp (by simp)
            have hlen : vals.length = vfs.length := parseVals_length hp
            have hdl := broadcastRow_ok_length hb
            rw [hlen] at hdl
            unfold malformedLine
            simp only [List.isEmpty_cons, List.tail_cons, hnone, Bool.or_false,
              Bool.false_or]
            rcases hdl with h2 | h2 <;> simp [h2]
          rw [List.any_cons, hnm, Bool.false_or] at h
          simp only [hb]
          exact ih h _ _ _ _

theorem load_err_of_malformed (s : WEState) (lines : List (List EmbField))
    (h : lines.any (malformedLine s.dimensions) = true) :
    ((load s lines).2).isSome = true :=
  loadLoop_err_of_malformed s.dimensions lines h _ _ _ _

theorem head?_set_of_pos {α : Type} (m : List α) (i : Nat) (a : α) (h : 0 < i) :
    (m.set i a).head? = m.head? := by
  cases m with
  | nil => rfl
  | cons x xs =>
    cases i with
    | zero => exact absurd h (by simp)
    | succ j => rfl

theorem uniformMatrix_length (g : Nat → ℚ) (p n d : Nat) :
    (uniformMatrix g p n d).length = n := by
  simp [uniformMatrix]

theorem cwmMatrixInit_shape {we : WEState} {n : Nat} {g : Nat → ℚ} {p : Nat}
    {m0 : List (List ℚ)} {p1 : Nat} (h : cwmMatrixInit we n g p = .ok (m0, p1)) :
    m0.length = n + 1 ∧
      (we.oov_init = OovInit.rand → m0.head? = some (List.replicate we.dimensions 0)) := by
  unfold cwmMatrixInit at h
  cases ho : we.oov_init with
  | rand =>
    rw [ho] at h
    cases hr : we.random_state.defaultRng with
    | error e => rw [hr] at h; exact absurd h (by simp)
    | ok u =>
      rw [hr] at h
      injection h with h2
      have hm : m0 = (uniformMatrix g p (n + 1) we.dimensions).set 0
          (List.replicate we.dimensions 0) := (congrArg Prod.fst h2).symm
      constructor
      · rw [hm, List.length_set, uniformMatrix_length]
      · intro _
        rw [hm]
        have hne : uniformMatrix g p (n + 1) we.dimensions ≠ [] := by
          intro hc
          have := uniformMatrix_length g p (n + 1) we.dimensions
          rw [hc] at this
          simp at this
        cases hu : uniformMatrix g p (n + 1) we.dimensions with
        | nil => exact absurd hu hne
        | cons r rs => rfl
  | zero =>
    rw [ho] at h
    injection h with h2
    have hm : m0 = List.replicate (n + 1) (List.replicate we.dimensions 0) :=
      (congrArg Prod.fst h2).symm
    constructor
    · rw [hm, List.length_replicate]
    · intro _
      rw [hm]
      rfl

theorem cwmLoop_shape {we : WEState} {g : Nat → ℚ} (items : List (String × Nat)) :
    ∀ m outw p M l p', (∀ it ∈ items, 1 ≤ it.2) →
      cwmLoop we g items m outw p = .ok (M, l, p') →
      M.length = m.length ∧ M.head? = m.head? := by
  induction items with
  | nil =>
    intro m outw p M l p' _ h
    unfold cwmLoop at h
    injection h with h2
    have hm : M = m := (congrArg Prod.fst h2).symm
    rw [hm]
    exact ⟨rfl, rfl⟩
  | cons it rest ih =>
    intro m outw p M l p' hpos h
    obtain ⟨word, index⟩ := it
    unfold cwmLoop at h
    cases hwv : we.vocab with
    | none => rw [hwv] at h; exact absurd h (by simp)
    | some wv =>
      rw [hwv] at h
      simp only at h
      cases hg : get we word true g p with
      | error e => rw [hg] at h; exact absurd h (by simp)
      | ok vp =>
        obtain ⟨vec, p2⟩ := vp
        rw [hg] at h
        simp only at h
        by_cases hidx : index < m.length
        · rw [if_pos hidx] at h
          have hrec := ih _ _ _ _ _ _
            (fun it2 hit2 => hpos it2 (List.mem_cons_of_mem _ hit2)) h
          have hip : (1 : Nat) ≤ index := hpos (word, index) (List.mem_cons_self _ _)
          refine ⟨?_, ?_⟩
          · rw [hrec.1, List.length_set]
          · rw [hrec.2, head?_set_of_pos _ _ _ (by omega)]
        · rw [if_neg hidx] at h
          exact absurd h (by simp)

theorem vocab_indices_pos {s : TokState} (hInv : TokInv s) :
    ∀ it ∈ s.vocab, 1 ≤ it.2 := by
  intro it hit
  have hmem : it.2 ∈ s.vocab.map Prod.snd := List.mem_map_of_mem _ hit
  rw [hInv.idx] at hmem
  exact (List.mem_range'_1.1 hmem).1

end WordEmbeddingLemmas

section ClaimC10Helper

theorem seqOfTokens_empty_vocab_oov (t : String) (toks : List String)
    (h : toks ≠ []) :
    seqOfTokens (tokenizerInit (some t)) toks = .error .keyError := by
  cases toks with
  | nil => exact absurd rfl h
  | cons tok ts => rfl

end ClaimC10Helper

/-- Claim C1 (code bug): at a concrete fitted tokenizer and loaded store,
`create_weight_matrix` with `return_not_in_wordembedding=False` returns the
`word_embedding` store object itself instead of the computed matrix, while
with the flag `True` it does return the `(matrix, out-of-embedding words)`
pair.  The claim (and the spec's intent) says the matrix is returned in
both cases. -/
theorem c1_flag_false_returns_store_not_matrix :
    create_weight_matrix tokHello weLoadedZero false gZero 0 =
      .ok (.store weLoadedZero, 0) ∧
    create_weight_matrix tokHello weLoadedZero true gZero 0 =
      .ok (.pair matZero2x50 ["hello"], 0) := by
  constructor
  · decide
  · decide

/-- Claim C2 (counterexample): `load` is not atomic.  On the two-line file
`linesPartial` whose second line is malformed, `load` raises, yet the
store's `vocab` afterwards is `{"a": 0}` (the successfully parsed first
line) rather than the pre-call `None`: the failed call left partially
loaded state behind. -/
theorem c2_failed_load_leaves_partial_state :
    ((load weFreshZero linesPartial).2).isSome = true ∧
    (load weFreshZero linesPartial).1.vocab = some [("a", 0)] ∧
    weFreshZero.vocab = none := by
  refine ⟨?_, ?_, ?_⟩ <;> decide

/-- Claim C2 (amended): `load` always discards the prior maps - the
post-call state and outcome depend only on the file and on the surviving
constructor fields (`dimensions`, `oov_init`, `random_state`), never on
the previously loaded `embedding`/`vocab`/`reverse_vocab`; on success the
maps hold the whole file, but on failure they hold the partially parsed
prefix rather than the pre-call state. -/
theorem c2_load_depends_only_on_file (s t : WEState) (lines : List (List EmbField))
    (h1 : s.dimensions = t.dimensions) (h2 : s.oov_init = t.oov_init)
    (h3 : s.random_state = t.random_state) : load s lines = load t lines :=
  load_discards_prior s t lines h1 h2 h3

/-- Witness for C2 (amended): a fresh store and an already-loaded store
with the same configuration run `load` to the same result. -/
theorem c2_load_depends_only_on_file_witness :
    weFreshZero.dimensions = weLoadedZero.dimensions ∧
    weFreshZero.oov_init = weLoadedZero.oov_init ∧
    weFreshZero.random_state = weLoadedZero.random_state ∧
    load weFreshZero [goodLineA] = load weLoadedZero [goodLineA] :=
  ⟨rfl, rfl, rfl,
    c2_load_depends_only_on_file weFreshZero weLoadedZero [goodLineA] rfl rfl rfl⟩

/-- Claim C3 (code bug): `WordEmbedding(50, 'rand', 42)` constructs and
loads fine, but `get` on an out-of-vocabulary word with `include_oov=True`
raises `AttributeError` instead of returning a fresh random vector:
`np.random.RandomState` has no `default_rng` method, so
`self.random_state.default_rng()` only works when `random_state` was left
unset. -/
theorem c3_seeded_rand_get_raises_attribute_error :
    wordEmbeddingInit 50 "rand" (RandomStateArg.int 42) = .ok weFreshRandSeeded ∧
    load weFreshRandSeeded [] = (weLoadedRandSeeded, none) ∧
    get weLoadedRandSeeded "absent" true gZero 0 = .error .attributeError := by
  refine ⟨?_, ?_, ?_⟩ <;> decide

/-- Claim C4: for a fitted tokenizer,
`sequences_to_texts (texts_to_sequences T)` succeeds and reproduces, text
by text, the lowercase whitespace-joined token stream of the pipeline,
with out-of-vocabulary tokens dropped when no OOV token is configured and
mapped to the OOV token's surface form when one is
(`specRoundTripText` is that spec-side description). -/
theorem c4_roundtrip (nlp : String → List String) (oov : Option String)
    (batches : List (List String)) (hb : batches ≠ []) (texts : List String) :
    (texts_to_sequences nlp (fitAll nlp (tokenizerInit oov) batches) texts).map
        (sequences_to_texts (fitAll nlp (tokenizerInit oov) batches)) =
      .ok (texts.map (specRoundTripText nlp (fitAll nlp (tokenizerInit oov) batches))) :=
  roundTrip_of_inv (tokInv_fitAll_init hb) nlp texts

/-- Witness for C4: fitting on `"Cat"` under a two-token pipeline and
round-tripping `["Cat"]` yields the lowercased join `"cat dog"`. -/
theorem c4_roundtrip_witness :
    ([["Cat"]] : List (List String)) ≠ [] ∧
    (texts_to_sequences nlpTwo (fitAll nlpTwo (tokenizerInit none) [["Cat"]])
        ["Cat"]).map (sequences_to_texts (fitAll nlpTwo (tokenizerInit none) [["Cat"]])) =
      .ok ["cat dog"] :=
  ⟨by decide, (c4_roundtrip nlpTwo none [["Cat"]] (by decide) ["Cat"]).trans (by decide)⟩

/-- Claim C5: after at least one `fit`, every token of the processed
corpus has a vocabulary index for its lowercase form; words are unique;
the indices, in first-seen (dict insertion) order, are exactly the
contiguous range `1, ..., n`; and when an OOV token is configured it sits
at index 1 with every other word's index at least 2. -/
theorem c5_vocabulary_invariant (nlp : String → List String) (oov : Option String)
    (batches : List (List String)) (hb : batches ≠ []) :
    (∀ b ∈ batches, ∀ tx ∈ b, ∀ tok ∈ nlp tx,
      (dlookup ((fitAll nlp (tokenizerInit oov) batches).vocab) (pyLower tok)).isSome) ∧
    ((fitAll nlp (tokenizerInit oov) batches).vocab.map Prod.fst).Nodup ∧
    (fitAll nlp (tokenizerInit oov) batches).vocab.map Prod.snd =
      List.range' 1 (fitAll nlp (tokenizerInit oov) batches).vocab.length ∧
    (∀ t, oov = some t →
      dlookup ((fitAll nlp (tokenizerInit oov) batches).vocab) t = some 1 ∧
      ∀ w i, dlookup ((fitAll nlp (tokenizerInit oov) batches).vocab) w = some i →
        w ≠ t → 2 ≤ i) := by
  have hInv : TokInv (fitAll nlp (tokenizerInit oov) batches) := tokInv_fitAll_init hb
  have hoov : (fitAll nlp (tokenizerInit oov) batches).oov_token = oov := by
    rw [fitAll_oov_token]
    rfl
  refine ⟨?_, hInv.keys, hInv.idx, ?_⟩
  · exact fitAll_coverage nlp batches _ (.inl (isInitState_init oov))
  · intro t ht
    have ht2 : (fitAll nlp (tokenizerInit oov) batches).oov_token = some t := by
      rw [hoov, ht]
    have h1 : dlookup ((fitAll nlp (tokenizerInit oov) batches).vocab) t = some 1 :=
      hInv.oov t ht2
    refine ⟨h1, ?_⟩
    intro w i hw hwt
    have hipos : 1 ≤ i := vocab_indices_pos hInv (w, i) (mem_of_dlookup hw)
    rcases Nat.lt_or_ge i 2 with hlt | hge
    · exfalso
      have hi1 : i = 1 := by omega
      subst hi1
      exact hwt (snd_nodup_unique (snd_nodup_of_inv hInv)
        (mem_of_dlookup hw) (mem_of_dlookup h1))
    · exact hge

/-- Witness for C5: fitting `["hi"]` with OOV token `"UNK"` satisfies all
four parts of the invariant. -/
theorem c5_vocabulary_invariant_witness :
    ([["hi"]] : List (List String)) ≠ [] ∧
    ((∀ b ∈ ([["hi"]] : List (List String)), ∀ tx ∈ b, ∀ tok ∈ nlpOne tx,
      (dlookup ((fitAll nlpOne (tokenizerInit (some "UNK")) [["hi"]]).vocab)
        (pyLower tok)).isSome) ∧
    ((fitAll nlpOne (tokenizerInit (some "UNK")) [["hi"]]).vocab.map Prod.fst).Nodup ∧
    (fitAll nlpOne (tokenizerInit (some "UNK")) [["hi"]]).vocab.map Prod.snd =
      List.range' 1 (fitAll nlpOne (tokenizerInit (some "UNK")) [["hi"]]).vocab.length ∧
    (∀ t, (some "UNK" : Option String) = some t →
      dlookup ((fitAll nlpOne (tokenizerInit (some "UNK")) [["hi"]]).vocab) t = some 1 ∧
      ∀ w i, dlookup ((fitAll nlpOne (tokenizerInit (some "UNK")) [["hi"]]).vocab) w =
          some i → w ≠ t → 2 ≤ i)) :=
  ⟨by decide, c5_vocabulary_invariant nlpOne (some "UNK") [["hi"]] (by decide)⟩

/-- Claim C6 (counterexample): a 50-dimensional store accepts a line with
exactly one numeric field after the word - numpy broadcasts the single
value across the whole row - so `load` does NOT fail on every line whose
numeric field count differs from `dimensions`. -/
theorem c6_single_numeric_field_is_accepted :
    (load weFreshZero [lineOneNum]).2 = none ∧
    lineOneNum.tail.length = 1 ∧
    weFreshZero.dimensions = 50 := by
  refine ⟨?_, ?_, ?_⟩ <;> decide

/-- Claim C6 (amended): `load` fails - aborting the whole load, with the
error surfaced to the caller - whenever some line is empty, has a
non-numeric field after the word, or has a numeric field count that is
neither `dimensions` nor 1 (a lone numeric field instead broadcasts
silently across the row). -/
theorem c6_load_fails_on_malformed_line (s : WEState) (lines : List (List EmbField))
    (h : lines.any (malformedLine s.dimensions) = true) :
    ((load s lines).2).isSome = true :=
  load_err_of_malformed s lines h

/-- Witness for C6 (amended): a line with zero numeric fields after the
word makes `load` fail. -/
theorem c6_load_fails_on_malformed_line_witness :
    ([lineNoVals].any (malformedLine weFreshZero.dimensions) = true) ∧
    ((load weFreshZero [lineNoVals]).2).isSome = true :=
  ⟨by decide, c6_load_fails_on_malformed_line weFreshZero [lineNoVals] (by decide)⟩

/-- Claim C7: whenever `create_weight_matrix` on a fitted tokenizer
returns the `(matrix, out-of-embedding words)` pair, the matrix has
exactly vocabulary-size + 1 rows, and under `oov_init='rand'` its row 0 is
the zero vector of length `dimensions`. -/
theorem c7_matrix_shape (nlp : String → List String) (oov : Option String)
    (batches : List (List String)) (we : WEState) (g : Nat → ℚ) (p : Nat)
    (hb : batches ≠ []) (M : List (List ℚ)) (l : List String) (p' : Nat)
    (hr : create_weight_matrix (fitAll nlp (tokenizerInit oov) batches) we true g p =
      .ok (.pair M l, p')) :
    M.length = (fitAll nlp (tokenizerInit oov) batches).vocab.length + 1 ∧
      (we.oov_init = OovInit.rand →
        M.head? = some (List.replicate we.dimensions 0)) := by
  have hInv : TokInv (fitAll nlp (tokenizerInit oov) batches) := tokInv_fitAll_init hb
  unfold create_weight_matrix at hr
  cases hc : cwmCore (fitAll nlp (tokenizerInit oov) batches) we g p with
  | error e => rw [hc] at hr; exact absurd hr (by simp)
  | ok res =>
    obtain ⟨m, outw, p2⟩ := res
    rw [hc] at hr
    simp only [if_true] at hr
    injection hr with hr2
    have hM : M = m := (congrArg (fun x => (Prod.fst x)) hr2).symm.rec (by
      have := congrArg Prod.fst hr2
      simp only at this
      injection this with hm ho
      exact hm.symm)
    have hp2 : p2 = p' := congrArg Prod.snd hr2
    unfold cwmCore at hc
    cases hmi : cwmMatrixInit we (fitAll nlp (tokenizerInit oov) batches).n_words g p with
    | error e => rw [hmi] at hc; exact absurd hc (by simp)
    | ok mp =>
      obtain ⟨m0, p1⟩ := mp
      rw [hmi] at hc
      simp only at hc
      have hshape := cwmLoop_shape (fitAll nlp (tokenizerInit oov) batches).vocab
        m0 [] p1 m outw p2 (vocab_indices_pos hInv) hc
      have hinit := cwmMatrixInit_shape hmi
      subst hM
      constructor
      · rw [hshape.1, hinit.1, hInv.nw]
      · intro hrand
        rw [hshape.2, hinit.2 hrand]

/-- Witness for C7: the concrete pair result for `tokHello` against the
loaded zero-initialised store has 2 = 1 + 1 rows. -/
theorem c7_matrix_shape_witness :
    ([["x"]] : List (List String)) ≠ [] ∧
    matZero2x50.length = (fitAll nlpHello (tokenizerInit none) [["x"]]).vocab.length + 1 ∧
    (weLoadedZero.oov_init = OovInit.rand →
      matZero2x50.head? = some (List.replicate weLoadedZero.dimensions 0)) :=
  ⟨by decide,
    c7_matrix_shape nlpHello none [["x"]] weLoadedZero gZero 0 (by decide)
      matZero2x50 ["hello"] 0 (by decide)⟩

/-- Claim C8: after any sequence of `fit` calls from a fresh tokenizer,
the counts in the frequency table sum to the total number of tokens the
pipeline produced across all fitted texts. -/
theorem c8_frequency_total (nlp : String → List String) (oov : Option String)
    (batches : List (List String)) :
    sumVals ((fitAll nlp (tokenizerInit oov) batches).words_count) =
      tokensInBatches nlp batches := by
  rw [sumVals_fitAll]
  show sumVals ([] : List (String × Nat)) + tokensInBatches nlp batches = _
  simp [sumVals]

/-- Claim C9 (counterexample): after a FAILED `load` (so `load` has never
succeeded), `get` no longer raises the "no embedding loaded" error - the
failed call already replaced `vocab`/`embedding` with non-`None` partial
values, so `get` on an absent word quietly returns the zero vector. -/
theorem c9_get_after_failed_load_does_not_raise :
    ((load weFreshZero [badLineB]).2).isSome = true ∧
    get (load weFreshZero [badLineB]).1 "v" true gZero 0 =
      .ok (List.replicate 50 0, 0) := by
  constructor
  · decide
  · decide

/-- Claim C9 (amended): for every store on which `load` has never been
invoked (fresh out of a successful `WordEmbedding.__init__`), `get` fails
with the "no embedding loaded" error for every word and every
`include_oov` value. -/
theorem c9_get_before_load_raises (d : Nat) (oovArg : String)
    (rsArg : RandomStateArg) (s : WEState)
    (h : wordEmbeddingInit d oovArg rsArg = .ok s) (w : String) (inc : Bool)
    (g : Nat → ℚ) (p : Nat) : get s w inc g p = .error .runtimeError :=
  get_of_vocab_none (wordEmbeddingInit_unloaded h).1 w inc g p

/-- Witness for C9 (amended): the freshly constructed
`WordEmbedding(50, 'zero', None)` raises on `get`. -/
theorem c9_get_before_load_raises_witness :
    wordEmbeddingInit 50 "zero" RandomStateArg.noneArg = .ok weFreshZero ∧
    get weFreshZero "w" true gZero 0 = .error .runtimeError :=
  ⟨by decide,
    c9_get_before_load_raises 50 "zero" RandomStateArg.noneArg weFreshZero
      (by decide) "w" true gZero 0⟩

/-- Claim C10: with an OOV token configured but before any `fit`, the OOV
token has not been registered (only `fit` does that), so
`texts_to_sequences` on any batch containing a text with a non-empty
tokenization raises a `KeyError` from `self.vocab[self.oov_token]` instead
of emitting the OOV index. -/
theorem c10_texts_to_sequences_before_fit_raises (nlp : String → List String)
    (t : String) (texts : List String) (h : ∃ tx ∈ texts, nlp tx ≠ []) :
    texts_to_sequences nlp (tokenizerInit (some t)) texts = .error .keyError := by
  induction texts with
  | nil => simp at h
  | cons tx rest ih =>
    obtain ⟨tx0, htx0, hne⟩ := h
    rcases List.mem_cons.1 htx0 with heq | hmem
    · subst heq
      cases hnlp : nlp tx0 with
      | nil => exact absurd hnlp hne
      | cons tok ts =>
        unfold texts_to_sequences
        rw [hnlp, seqOfTokens_empty_vocab_oov t (tok :: ts) (by simp)]
    · cases hnlp : nlp tx with
      | nil =>
        unfold texts_to_sequences
        rw [hnlp]
        show (match texts_to_sequences nlp (tokenizerInit (some t)) rest with
          | .error e => .error e
          | .ok rs => .ok ([] :: rs)) = Except.error PyError.keyError
        rw [ih ⟨tx0, hmem, hne⟩]
      | cons tok ts =>
        unfold texts_to_sequences
        rw [hnlp, seqOfTokens_empty_vocab_oov t (tok :: ts) (by simp)]

/-- Witness for C10: one text tokenizing to itself under a configured OOV
token raises `KeyError` before any `fit`. -/
theorem c10_texts_to_sequences_before_fit_raises_witness :
    (∃ tx ∈ (["x"] : List String), nlpOne tx ≠ []) ∧
    texts_to_sequences nlpOne (tokenizerInit (some "UNK")) ["x"] =
      .error .keyError :=
  ⟨by decide,
    c10_texts_to_sequences_before_fit_raises nlpOne "UNK" ["x"] (by decide)⟩

end DLHate
